import Mathlib

/-
Verification of the evolutionary search core of brain_autorl
(src/evolving_rl/evolution.py): the DAGPointMutator duplicate tracking and
point-mutation logic, and the CGSRegularizedEvolution propose/feedback cycle.

External collaborators (the program codec, build_program, the operator
catalogue, the random-input initializer and the PRNG streams) are modelled as
opaque parameters of the embedded functions; everything else is translated
line by line from evolution.py.
-/

namespace EvolvingRL

/-- Model of an IEEE floating-point value as observed by the fingerprinting
code: NaN, a signed infinity, or a finite value modelled as a rational. -/
inductive FVal where
  | nan : FVal
  | posInf : FVal
  | negInf : FVal
  | fin : ℚ → FVal
deriving DecidableEq

/-- Largest finite float32 value, np.finfo(np.float32).max, which equals
(2 - 2 ^ (-23)) * 2 ^ 127 = 2 ^ 128 - 2 ^ 104 exactly, written as a plain
numeral. np.finfo(np.float32).min is its negation. -/
def f32max : ℚ := 340282346638528859811704183484516925440

theorem f32max_eq_pow : f32max = 2 ^ 128 - 2 ^ 104 := by norm_num [f32max]

/-- The np.isnan-or-np.isinf test of evolution.py line 63. -/
def FVal.isNanOrInf : FVal → Bool
  | .nan => true
  | .posInf => true
  | .negInf => true
  | .fin _ => false

/-- Clamping of a finite value to the float32 range, as np.clip does it:
values below the lower bound become the lower bound, values above the upper
bound become the upper bound, anything else is unchanged. -/
def clampF32 (q : ℚ) : ℚ :=
  if q ≤ -f32max then -f32max else if f32max ≤ q then f32max else q

/-- np.clip(x, float32 min, float32 max): clamps finite values to the range,
sends the infinities to the range endpoints, and propagates NaN (np.clip of
NaN is NaN, which is why the code must test for NaN before clipping). -/
def npClip : FVal → FVal
  | .nan => .nan
  | .posInf => .fin f32max
  | .negInf => .fin (-f32max)
  | .fin q => .fin (clampF32 q)

/-- DAGPointMutator._compute_hash_output (evolution.py lines 60-69). The sum
of the rounded outputs of the external compiled program is the opaque input
rawSum; randFloat is self.rand_float, drawn once in _on_bound. When the sum
is NaN or infinite it is replaced by randFloat, then the result is clipped to
the float32 range. -/
def computeHashOutput (rawSum : FVal) (randFloat : ℚ) : FVal :=
  npClip (if rawSum.isNanOrInf then FVal.fin randFloat else rawSum)

/-- The same fingerprint computation with its always-finite result returned
as a rational: the NaN-or-infinite sum is replaced by the fallback float,
then clamped to the float32 range. -/
def computeHashQ (rawSum : FVal) (randFloat : ℚ) : ℚ :=
  match rawSum with
  | .fin q => clampF32 q
  | _ => clampF32 randFloat

/-- Lookup in the output_dict mapping, modelled as an association list in
which the most recent write for a key shadows older entries. -/
def dictLookup (d : List (ℚ × ℚ)) (k : ℚ) : Option ℚ :=
  (d.find? (fun p => decide (p.1 = k))).map (fun p => p.2)

/-- Python dict assignment output_dict[k] = v, modelled by consing the new
entry so that it shadows any previous entry for k (last-write-wins). -/
def dictInsert (d : List (ℚ × ℚ)) (k v : ℚ) : List (ℚ × ℚ) :=
  (k, v) :: d

/-- DAGPointMutator._check_duplicate (evolution.py lines 71-76): look the
fingerprint up in output_dict; if present return it with True and the cached
reward, otherwise with False and 0. -/
def checkDuplicate (d : List (ℚ × ℚ)) (fp : ℚ) : ℚ × Bool × ℚ :=
  match dictLookup d fp with
  | some r => (fp, true, r)
  | none => (fp, false, 0)

/-- Modelled from the spec: ProgramSpec (program_search.py is not under
src/) — the structural description of a candidate: its program list (one
(operator index, input index list) pair per non-input node), the loss-weight
hyperparameter, and the attached duplicate/reward/fingerprint metadata, with
false/0 defaults for fields a constructor call leaves out. -/
structure ProgramSpecL where
  programLst : List (ℕ × List ℕ)
  lossWeight : ℚ := 0
  duplicate : Bool := false
  reward : ℚ := 0
  hashOutput : ℚ := 0
deriving DecidableEq, Inhabited

/-- DAGPointMutator._alter_continuous (evolution.py lines 200-203): keep the
program list and draw a new loss weight uniformly from the loss node's
allowed weights (random.choice modelled as the drawn index wDraw reduced
modulo the list length). -/
def alterContinuous (programLst : List (ℕ × List ℕ)) (lossWeights : List ℚ)
    (wDraw : ℕ) : ProgramSpecL :=
  { programLst := programLst
    lossWeight := lossWeights.getD (wDraw % lossWeights.length) 0 }

/-- The mutable state of a DAGPointMutator that evolution.py ever writes:
the output_dict fingerprint-to-reward mapping. -/
structure MutState where
  outputDict : List (ℚ × ℚ)
deriving DecidableEq, Inhabited

/-- DAGPointMutator._check_duplicate with the mutator state threaded
explicitly: the body of lines 71-76 only reads self.output_dict, so the
state component of the result is the input state. -/
def checkDuplicateM (st : MutState) (fp : ℚ) : (ℚ × Bool × ℚ) × MutState :=
  (checkDuplicate st.outputDict fp, st)

/-- DAGPointMutator.update_output_dict (evolution.py lines 78-83): store the
fingerprint embedded in the genome's compact encoding (its last value, the
hash_output field) with the reward; an existing key is overwritten, the
collision being only logged. -/
def updateOutputDict (st : MutState) (dna : ProgramSpecL) (reward : ℚ) : MutState :=
  { st with outputDict := dictInsert st.outputDict dna.hashOutput reward }

/-- The while-True loop of DAGPointMutator.mutate (evolution.py lines
98-123), with fuel bounding the number of iterations (the source loop is
unbounded; fuel 0 models non-termination as none). Per iteration: run
_alter_node_idx (modelled by alterNode, indexed by the iteration counter
because each retry makes fresh random draws; its body never touches
output_dict), rebuild via the external build_program (buildValid), retry if
invalid, otherwise run the duplicate check and encode the new ProgramSpec
with the duplicate, reward and hash_output metadata attached. The summed
output of the rebuilt program is the opaque rawSum collaborator. -/
def mutateLoop (alterNode : ℕ → ProgramSpecL) (buildValid : ProgramSpecL → Bool)
    (rawSum : ProgramSpecL → FVal) (randFloat : ℚ) :
    MutState → ℕ → Option ProgramSpecL × MutState
  | st, 0 => (none, st)
  | st, fuel + 1 =>
    let newSpec := alterNode (fuel + 1)
    if buildValid newSpec then
      let chk := checkDuplicateM st (computeHashQ (rawSum newSpec) randFloat)
      (some { programLst := newSpec.programLst
              lossWeight := newSpec.lossWeight
              duplicate := chk.1.2.1
              reward := chk.1.2.2
              hashOutput := chk.1.1 }, chk.2)
    else
      mutateLoop alterNode buildValid rawSum randFloat st fuel

/-- DAGPointMutator.mutate (evolution.py lines 85-135): with probability
mutation_probability (the Boolean doMutation models the random.random()
draw) run the point-mutation loop, otherwise return the freshly sampled
valid program spec obtained from the external sample_valid_program_spec. -/
def mutateM (doMutation : Bool) (alterNode : ℕ → ProgramSpecL)
    (buildValid : ProgramSpecL → Bool) (rawSum : ProgramSpecL → FVal)
    (randFloat : ℚ) (freshSpec : ProgramSpecL) (st : MutState) (fuel : ℕ) :
    Option ProgramSpecL × MutState :=
  if doMutation then mutateLoop alterNode buildValid rawSum randFloat st fuel
  else (some freshSpec, st)

/-- The mutate loop as it runs when the sampled target node is the
designated loss node: _alter_node_idx detects the LossOpNode instance
(evolution.py lines 160-161) and produces _alter_continuous's spec, the
iteration index feeding the per-retry loss-weight draw wDraws. -/
def mutateLossRun (programLst : List (ℕ × List ℕ)) (lossWeights : List ℚ)
    (wDraws : ℕ → ℕ) (buildValid : ProgramSpecL → Bool)
    (rawSum : ProgramSpecL → FVal) (randFloat : ℚ) (st : MutState) (fuel : ℕ) :
    Option ProgramSpecL × MutState :=
  mutateLoop (fun i => alterContinuous programLst lossWeights (wDraws i))
    buildValid rawSum randFloat st fuel

/-- An evaluated individual (evolution.py class _Individual): a DNA paired
with the reward it was fed back with. -/
structure Individual where
  dna : ProgramSpecL
  reward : ℚ
deriving DecidableEq, Inhabited

/-- The eviction loop of CGSRegularizedEvolution.feedback (evolution.py
lines 262-264): while the population exceeds capacity, pop the oldest
(leftmost) individual. -/
def evictOldest (popSize : ℕ) : List Individual → List Individual
  | [] => []
  | x :: xs => if popSize < (x :: xs).length then evictOldest popSize xs else x :: xs

/-- The population effect of CGSRegularizedEvolution.feedback (lines
261-264): append the new individual on the right, then evict from the
left while over capacity. -/
def feedbackPop (popSize : ℕ) (pop : List Individual) (ind : Individual) :
    List Individual :=
  evictOldest popSize (pop ++ [ind])

/-- A whole run of feedback calls applied to the empty deque created by
setup (evolution.py line 224). -/
def runFeedbacks (popSize : ℕ) (calls : List Individual) : List Individual :=
  calls.foldl (feedbackPop popSize) []

/-- One comparison step of Python max with key=reward: keep the current
best, replacing it only on a strictly larger reward. -/
def maxStep (best i : Individual) : Individual :=
  if best.reward < i.reward then i else best

/-- Python max(tournament, key=lambda i: i.reward) (evolution.py line 250):
the first element attaining the maximal reward; none on an empty list. -/
def maxByReward : List Individual → Option Individual
  | [] => none
  | x :: xs => some (xs.foldl maxStep x)

/-- The controller state: the population deque and the mutator it owns. -/
structure ControllerState where
  population : List Individual
  mutSt : MutState
deriving DecidableEq, Inhabited

/-- The tournament drawn at evolution.py line 247: the individuals of the
population at the positions random.sample returned (the drawn positions are
the sampleIdxs parameter). -/
def tournamentOf (pop : List Individual) (sampleIdxs : List ℕ) : List Individual :=
  sampleIdxs.map (fun i => pop.getD i default)

/-- CGSRegularizedEvolution.propose (evolution.py lines 230-255): while the
population is below capacity return a freshly sampled genome (freshDna, from
the external sampler) with no parent selection; otherwise tournament-select
the maximum-reward member of the drawn sample and hand its cloned DNA to the
mutator. mutateFn is the mutator call with its state threaded; none models
the unreachable empty-tournament case. -/
def proposeM (popSize : ℕ) (freshDna : ProgramSpecL) (sampleIdxs : List ℕ)
    (mutateFn : MutState → ProgramSpecL → Option ProgramSpecL × MutState)
    (st : ControllerState) : Option ProgramSpecL × ControllerState :=
  if st.population.length < popSize then (some freshDna, st)
  else
    match maxByReward (tournamentOf st.population sampleIdxs) with
    | none => (none, st)
    | some sel =>
      let r := mutateFn st.mutSt sel.dna
      (r.1, { st with mutSt := r.2 })

/-- CGSRegularizedEvolution.feedback (evolution.py lines 257-264): record
the reward in the mutator's output_dict under the genome's embedded
fingerprint, append the new individual, and evict the oldest while the
population exceeds capacity. -/
def feedbackM (popSize : ℕ) (st : ControllerState) (dna : ProgramSpecL)
    (reward : ℚ) : ControllerState :=
  { population := evictOldest popSize (st.population ++ [⟨dna, reward⟩])
    mutSt := updateOutputDict st.mutSt dna reward }

/-- A node of the compiled program's ops_lst: only its output dtype is
inspected by the mutation logic. -/
structure Node where
  odtype : ℕ
deriving DecidableEq, Inhabited

/-- The candidate-input slice of DAGPointMutator._alter_node_idx line 166:
all_inputs = loss_program.ops_lst[:node_idx - 1], with Python slice
semantics (node_idx = 0 would give ops_lst[:-1], dropping only the last
element). -/
def allInputsOf (opsLst : List Node) (nodeIdx : ℕ) : List Node :=
  if nodeIdx = 0 then opsLst.take (opsLst.length - 1)
  else opsLst.take (nodeIdx - 1)

/-- Modelled from the spec: the candidate-input set the spec describes for a
target at index k — all nodes preceding the target in dependency order,
indices 0 .. k-1, i.e. ops_lst[:k]. Stated for comparison with allInputsOf,
which is translated from the source. -/
def specCandidateInputs (opsLst : List Node) (nodeIdx : ℕ) : List Node :=
  opsLst.take nodeIdx

/-- An operator class of the catalogue as consumed by _alter_node_idx: the
precheck_valid_input capability, output-dtype inference of a constructed
node from its input dtypes, the external get_possible_input_idxs
enumeration, and whether the class is LossOpNode. -/
structure OpCls where
  precheck : List Node → Bool
  inferOdtype : List ℕ → ℕ
  possibleInputIdxs : ℕ → List (List ℕ)
  isLoss : Bool

/-- The input nodes a candidate input-index combination selects from
all_inputs (evolution.py line 176). -/
def inputOpsOf (allInputs : List Node) (inputIdxs : List ℕ) : List Node :=
  inputIdxs.map (fun i => allInputs.getD i default)

/-- The acceptance test of one candidate in _alter_node_idx (evolution.py
lines 178-187): the operator's input precheck must pass, and when the target
is not a leaf the constructed node's output dtype must equal the replaced
node's output dtype; for a leaf target the dtype is unconstrained. -/
def candidateOk (opCls : OpCls) (allInputs : List Node) (isLeaf : Bool)
    (origOdtype : ℕ) (inputIdxs : List ℕ) : Bool :=
  opCls.precheck (inputOpsOf allInputs inputIdxs) &&
    (isLeaf ||
      decide (opCls.inferOdtype ((inputOpsOf allInputs inputIdxs).map Node.odtype) =
        origOdtype))

/-- The valid_lst built by _alter_node_idx (evolution.py lines 168-187):
over every non-loss operator class of the catalogue (op_idx its catalogue
position, the catalogue holding distinct classes) and every input-index
combination enumerated by get_possible_input_idxs over range(len(all_inputs)),
keep the pairs passing candidateOk. -/
def validLst (operators : List OpCls) (allInputs : List Node) (isLeaf : Bool)
    (origOdtype : ℕ) : List (ℕ × List ℕ) :=
  operators.enum.flatMap (fun p =>
    if p.2.isLoss then []
    else ((p.2.possibleInputIdxs allInputs.length).filter
        (candidateOk p.2 allInputs isLeaf origOdtype)).map (fun ii => (p.1, ii)))

/-- A run environment for the randomness-routing analysis: the controller's
configured seed, and the ambient module-level random stream (Python's module
random, evolution.py line 22 import) whose state is global and not derived
from the controller's seed. -/
structure DrawEnv where
  seed : ℕ
  modStream : List ℕ
deriving DecidableEq

/-- Modelled deterministic stream of random.Random(seed) (evolution.py line
228): a fixed function of the seed alone; only that determinism matters to
the routing analysis, not the concrete generator. -/
def instStream (seed n : ℕ) : ℕ := seed + n

/-- The tournament positions drawn at evolution.py line 247: self._random
.sample draws through the instance's seeded source (the sampling algorithm is
abstracted; what is modelled is which source the draw consumes). -/
def tournamentIdxs (e : DrawEnv) (popLen tourSize : ℕ) : List ℕ :=
  (List.range tourSize).map (fun i => instStream e.seed i % popLen)

/-- Mutation-target selection, DAGPointMutator._sample_node_idx_to_mutate
(evolution.py lines 137-148): idxs = range(num_inputs + num_freeze,
len(ops_lst)), the last (loss) slot dropped when loss-weight mutation is
off, then random.choice — which draws through the MODULE-level random
source, not the controller's seeded instance source. -/
def mutationTargetIdx (e : DrawEnv) (numInputs numFreeze opsLen : ℕ)
    (adjustLossWeight : Bool) : ℕ :=
  let idxs0 := List.range' (numInputs + numFreeze) (opsLen - (numInputs + numFreeze))
  let idxs := if adjustLossWeight then idxs0 else idxs0.dropLast
  idxs.getD (e.modStream.headD 0 % idxs.length) 0

/-- The random draws of one steady-state proposal: the tournament positions
(through the instance source) and the mutation-target index (through the
module-level source). -/
def proposalDraws (e : DrawEnv) (popLen tourSize numInputs numFreeze opsLen : ℕ)
    (adjustLossWeight : Bool) : List ℕ × ℕ :=
  (tournamentIdxs e popLen tourSize,
   mutationTargetIdx e numInputs numFreeze opsLen adjustLossWeight)

theorem computeHashOutput_eq_fin (rawSum : FVal) (randFloat : ℚ) :
    computeHashOutput rawSum randFloat = .fin (computeHashQ rawSum randFloat) := by
  cases rawSum <;> rfl

theorem f32max_pos : (0 : ℚ) < f32max := by norm_num [f32max]

theorem clamp_bounds (q : ℚ) : -f32max ≤ clampF32 q ∧ clampF32 q ≤ f32max := by
  unfold clampF32
  split_ifs with h1 h2
  · exact ⟨le_refl _, by linarith [f32max_pos]⟩
  · exact ⟨by linarith [f32max_pos], le_refl _⟩
  · exact ⟨by linarith, by linarith⟩

/-- C6: for every compiled program, the fingerprint is a finite value within
the representable range of a 32-bit float and is never NaN or infinite, even
when the sum of the program's raw outputs is NaN or infinite (in which case
the pre-drawn fallback float is substituted before clipping). -/
theorem c6_fingerprint_bounded (rawSum : FVal) (randFloat : ℚ) :
    ∃ q : ℚ, computeHashOutput rawSum randFloat = .fin q ∧
      -f32max ≤ q ∧ q ≤ f32max :=
  ⟨computeHashQ rawSum randFloat, computeHashOutput_eq_fin rawSum randFloat,
    by cases rawSum <;> exact (clamp_bounds _).1,
    by cases rawSum <;> exact (clamp_bounds _).2⟩

/-- C8: the duplicate check returns a triple whose first component is the
computed fingerprint; it reports a duplicate together with the mapping's
stored reward exactly when the fingerprint is a key of the tracker's
fingerprint-to-reward mapping, and otherwise reports (fp, false, 0). -/
theorem c8_check_duplicate (d : List (ℚ × ℚ)) (rawSum : FVal) (randFloat : ℚ) :
    (checkDuplicate d (computeHashQ rawSum randFloat)).1 = computeHashQ rawSum randFloat ∧
    (∀ r : ℚ, dictLookup d (computeHashQ rawSum randFloat) = some r →
      checkDuplicate d (computeHashQ rawSum randFloat) =
        (computeHashQ rawSum randFloat, true, r)) ∧
    (dictLookup d (computeHashQ rawSum randFloat) = none →
      checkDuplicate d (computeHashQ rawSum randFloat) =
        (computeHashQ rawSum randFloat, false, 0)) := by
  refine ⟨?_, ?_, ?_⟩
  · unfold checkDuplicate
    cases dictLookup d (computeHashQ rawSum randFloat) <;> rfl
  · intro r hr
    unfold checkDuplicate
    rw [hr]
  · intro hn
    unfold checkDuplicate
    rw [hn]

/-- Witness for C8 at a concrete input: an empty tracker reports no
duplicate and reward 0 for the fingerprint of a program summing to 1. -/
theorem c8_check_duplicate_witness :
    checkDuplicate [] (computeHashQ (.fin 1) 0) =
      (computeHashQ (.fin 1) 0, false, 0) :=
  (c8_check_duplicate [] (.fin 1) 0).2.2 rfl

theorem dictLookup_insert_self (d : List (ℚ × ℚ)) (k v : ℚ) :
    dictLookup (dictInsert d k v) k = some v := by
  unfold dictLookup dictInsert
  rw [List.find?_cons_of_pos _ (by simp)]
  rfl

/-- C10: any two compiled programs whose summed outputs are NaN or infinite
receive the identical fingerprint (the single fallback float drawn once at
mutator setup), so once a reward has been recorded under that fingerprint,
every later numerically invalid program is reported as a duplicate with that
cached reward. -/
theorem c10_invalid_share_fingerprint (s1 s2 : FVal) (r w : ℚ) (d : List (ℚ × ℚ))
    (h1 : s1.isNanOrInf = true) (h2 : s2.isNanOrInf = true) :
    computeHashQ s1 r = computeHashQ s2 r ∧
    checkDuplicate (dictInsert d (computeHashQ s1 r) w) (computeHashQ s2 r) =
      (computeHashQ s1 r, true, w) := by
  have key : ∀ s : FVal, s.isNanOrInf = true →
      computeHashQ s r = clampF32 r := by
    intro s hs
    cases s with
    | fin q => exact Bool.noConfusion hs
    | nan => rfl
    | posInf => rfl
    | negInf => rfl
  have he : computeHashQ s1 r = computeHashQ s2 r :=
    (key s1 h1).trans (key s2 h2).symm
  refine ⟨he, ?_⟩
  rw [← he]
  unfold checkDuplicate
  rw [dictLookup_insert_self]

/-- Witness for C10 at a concrete input: a NaN-summing and a
positive-infinity-summing program share the fallback fingerprint and the
second is reported as a duplicate of the first with its recorded reward. -/
theorem c10_invalid_share_fingerprint_witness :
    computeHashQ .nan 0 = computeHashQ .posInf 0 ∧
    checkDuplicate (dictInsert [] (computeHashQ .nan 0) 5) (computeHashQ .posInf 0) =
      (computeHashQ .nan 0, true, 5) :=
  c10_invalid_share_fingerprint .nan .posInf 0 5 [] rfl rfl

theorem evictOldest_eq_drop (popSize : ℕ) (l : List Individual) :
    evictOldest popSize l = l.drop (l.length - popSize) := by
  induction l with
  | nil => rw [List.drop_nil]; rfl
  | cons x xs ih =>
    rw [evictOldest]
    by_cases h : popSize < (x :: xs).length
    · rw [if_pos h, ih]
      simp only [List.length_cons] at h ⊢
      have h2 : xs.length + 1 - popSize = (xs.length - popSize) + 1 := by omega
      rw [h2, List.drop_succ_cons]
    · rw [if_neg h]
      simp only [List.length_cons] at h ⊢
      have h2 : xs.length + 1 - popSize = 0 := by omega
      rw [h2, List.drop_zero]

theorem feedbackPop_eq_drop (popSize : ℕ) (pop : List Individual) (ind : Individual) :
    feedbackPop popSize pop ind = (pop ++ [ind]).drop ((pop.length + 1) - popSize) := by
  rw [feedbackPop, evictOldest_eq_drop]
  simp only [List.length_append, List.length_cons, List.length_nil, Nat.zero_add]

theorem runFrom_eq_drop (popSize : ℕ) (calls : List Individual) :
    ∀ pop : List Individual, pop.length ≤ popSize →
      calls.foldl (feedbackPop popSize) pop =
        (pop ++ calls).drop ((pop.length + calls.length) - popSize) := by
  induction calls with
  | nil =>
    intro pop h
    simp only [List.foldl_nil, List.append_nil, List.length_nil, Nat.add_zero]
    rw [Nat.sub_eq_zero_of_le h, List.drop_zero]
  | cons c cs ih =>
    intro pop h
    rw [List.foldl_cons, feedbackPop_eq_drop]
    have hd : (pop.length + 1) - popSize ≤ (pop ++ [c]).length := by
      simp only [List.length_append, List.length_cons, List.length_nil, Nat.zero_add]
      omega
    have hlen : ((pop ++ [c]).drop ((pop.length + 1) - popSize)).length ≤ popSize := by
      simp only [List.length_drop, List.length_append, List.length_cons, List.length_nil]
      omega
    rw [ih _ hlen, ← List.drop_append_of_le_length hd, List.drop_drop]
    have hL : (pop ++ [c]) ++ cs = pop ++ c :: cs := by simp
    rw [hL]
    congr 1
    simp only [List.length_drop, List.length_append, List.length_cons, List.length_nil]
    omega

/-- C3: after any sequence of feedback calls the population size never
exceeds population_size, eviction always removes the earliest-inserted
surviving individual, and the relative insertion order of the survivors is
preserved: the population is exactly the suffix of the fed-back individuals
consisting of the most recent population_size of them, in insertion order. -/
theorem c3_population_fifo (popSize : ℕ) (calls : List Individual) :
    (runFeedbacks popSize calls).length ≤ popSize ∧
    runFeedbacks popSize calls = calls.drop (calls.length - popSize) := by
  have h := runFrom_eq_drop popSize calls [] (by simp)
  simp only [List.nil_append, List.length_nil, Nat.zero_add] at h
  rw [runFeedbacks, h]
  constructor
  · rw [List.length_drop]
    omega
  · rfl

theorem foldl_maxStep_spec (xs : List Individual) :
    ∀ x : Individual,
      (xs.foldl maxStep x = x ∨ xs.foldl maxStep x ∈ xs) ∧
      x.reward ≤ (xs.foldl maxStep x).reward ∧
      ∀ y ∈ xs, y.reward ≤ (xs.foldl maxStep x).reward := by
  induction xs with
  | nil =>
    intro x
    exact ⟨Or.inl rfl, le_refl _, fun y hy => absurd hy (List.not_mem_nil y)⟩
  | cons z zs ih =>
    intro x
    rw [List.foldl_cons]
    obtain ⟨hmem, hs, hall⟩ := ih (maxStep x z)
    have hcase : maxStep x z = x ∨ maxStep x z = z := by
      by_cases h : x.reward < z.reward <;> simp [maxStep, h]
    have hsx : x.reward ≤ (maxStep x z).reward := by
      by_cases h : x.reward < z.reward <;> simp [maxStep, h]
      exact le_of_lt h
    have hsz : z.reward ≤ (maxStep x z).reward := by
      by_cases h : x.reward < z.reward <;> simp [maxStep, h]
      exact le_of_not_lt h
    refine ⟨?_, le_trans hsx hs, ?_⟩
    · rcases hmem with h | h
      · rcases hcase with h2 | h2
        · exact Or.inl (h.trans h2)
        · exact Or.inr (by rw [h, h2]; exact List.mem_cons_self z zs)
      · exact Or.inr (List.mem_cons_of_mem z h)
    · intro y hy
      rcases List.mem_cons.mp hy with rfl | hy2
      · exact le_trans hsz hs
      · exact hall y hy2

theorem maxByReward_spec (x : Individual) (xs : List Individual) :
    ∃ sel, maxByReward (x :: xs) = some sel ∧ sel ∈ x :: xs ∧
      ∀ y ∈ x :: xs, y.reward ≤ sel.reward := by
  obtain ⟨hmem, hx, hall⟩ := foldl_maxStep_spec xs x
  refine ⟨xs.foldl maxStep x, rfl, ?_, ?_⟩
  · rcases hmem with h | h
    · rw [h]; exact List.mem_cons_self x xs
    · exact List.mem_cons_of_mem x h
  · intro y hy
    rcases List.mem_cons.mp hy with rfl | hy2
    · exact hx
    · exact hall y hy2

theorem tournament_subset (pop : List Individual) (idxs : List ℕ)
    (hb : ∀ i ∈ idxs, i < pop.length) :
    ∀ y ∈ tournamentOf pop idxs, y ∈ pop := by
  intro y hy
  rw [tournamentOf, List.mem_map] at hy
  obtain ⟨i, hi, rfl⟩ := hy
  have hlt := hb i hi
  rw [List.getD_eq_getElem?_getD, List.getElem?_eq_getElem hlt]
  exact List.getElem_mem hlt

/-- C4: when the population is at capacity, propose tournament-selects from
the drawn sample (the positions random.sample returned) the individual with
the maximum reward and hands its DNA to the mutator; below capacity, propose
returns the freshly sampled genome with no parent selection and no mutation
(the result does not depend on the mutator at all). -/
theorem c4_propose_tournament (popSize : ℕ) (freshDna : ProgramSpecL)
    (sampleIdxs : List ℕ)
    (mutateFn : MutState → ProgramSpecL → Option ProgramSpecL × MutState)
    (st : ControllerState) :
    (st.population.length < popSize →
      proposeM popSize freshDna sampleIdxs mutateFn st = (some freshDna, st)) ∧
    (¬ st.population.length < popSize → sampleIdxs ≠ [] →
      (∀ i ∈ sampleIdxs, i < st.population.length) →
      ∃ sel, sel ∈ tournamentOf st.population sampleIdxs ∧
        sel ∈ st.population ∧
        (∀ y ∈ tournamentOf st.population sampleIdxs, y.reward ≤ sel.reward) ∧
        proposeM popSize freshDna sampleIdxs mutateFn st =
          ((mutateFn st.mutSt sel.dna).1,
            { st with mutSt := (mutateFn st.mutSt sel.dna).2 })) := by
  constructor
  · intro h
    rw [proposeM, if_pos h]
  · intro h hne hbound
    obtain ⟨i, is, rfl⟩ : ∃ i is, sampleIdxs = i :: is := by
      cases sampleIdxs with
      | nil => exact absurd rfl hne
      | cons i is => exact ⟨i, is, rfl⟩
    have htour : tournamentOf st.population (i :: is) =
        st.population.getD i default :: is.map (fun j => st.population.getD j default) := by
      rw [tournamentOf, List.map_cons]
    obtain ⟨sel, hsel, hmem, hmax⟩ :=
      maxByReward_spec (st.population.getD i default)
        (is.map (fun j => st.population.getD j default))
    refine ⟨sel, ?_, ?_, ?_, ?_⟩
    · rw [htour]; exact hmem
    · exact tournament_subset st.population (i :: is) hbound sel (by rw [htour]; exact hmem)
    · intro y hy
      rw [htour] at hy
      exact hmax y hy
    · rw [proposeM, if_neg h, htour, hsel]

/-- Witness for C4 at a concrete input: with a full population of two
individuals with rewards 1 and 2 and the sample drawing both positions,
propose selects a maximum-reward member of the tournament and hands its DNA
to the mutator. -/
theorem c4_propose_tournament_witness :
    ∃ sel,
      sel ∈ tournamentOf [⟨{ programLst := [] }, 1⟩, ⟨{ programLst := [(1, [0])] }, 2⟩] [0, 1] ∧
      sel ∈ [⟨{ programLst := [] }, 1⟩, ⟨{ programLst := [(1, [0])] }, 2⟩] ∧
      (∀ y ∈ tournamentOf [⟨{ programLst := [] }, 1⟩, ⟨{ programLst := [(1, [0])] }, 2⟩] [0, 1],
        y.reward ≤ sel.reward) ∧
      proposeM 2 { programLst := [] } [0, 1] (fun m d => (some d, m))
          ⟨[⟨{ programLst := [] }, 1⟩, ⟨{ programLst := [(1, [0])] }, 2⟩], ⟨[]⟩⟩ =
        (some sel.dna,
          ⟨[⟨{ programLst := [] }, 1⟩, ⟨{ programLst := [(1, [0])] }, 2⟩], ⟨[]⟩⟩) :=
  (c4_propose_tournament 2 { programLst := [] } [0, 1] (fun m d => (some d, m))
      ⟨[⟨{ programLst := [] }, 1⟩, ⟨{ programLst := [(1, [0])] }, 2⟩], ⟨[]⟩⟩).2
    (by decide) (by decide) (by decide)

theorem mutateLoop_state (alterNode : ℕ → ProgramSpecL) (buildValid : ProgramSpecL → Bool)
    (rawSum : ProgramSpecL → FVal) (randFloat : ℚ) (st : MutState) (fuel : ℕ) :
    (mutateLoop alterNode buildValid rawSum randFloat st fuel).2 = st := by
  induction fuel with
  | zero => rfl
  | succ n ih =>
    rw [mutateLoop]
    by_cases h : buildValid (alterNode (n + 1)) = true
    · rw [if_pos h]
      rfl
    · rw [if_neg h]
      exact ih


/-- C9: mutate has no observable side effect beyond its return value — the
duplicate tracker's mapping is unchanged by any call of mutate or propose
(the duplicate lookup is read-only) — and the mapping is written exactly
when feedback records a reward, under the genome's embedded fingerprint. -/
theorem c9_tracker_frame (doMutation : Bool) (alterNode : ℕ → ProgramSpecL)
    (buildValid : ProgramSpecL → Bool) (rawSum : ProgramSpecL → FVal)
    (randFloat : ℚ) (freshSpec : ProgramSpecL) (st : MutState) (fuel : ℕ)
    (popSize : ℕ) (freshDna : ProgramSpecL) (sampleIdxs : List ℕ)
    (cst : ControllerState) (dna : ProgramSpecL) (reward : ℚ) :
    (mutateM doMutation alterNode buildValid rawSum randFloat freshSpec st fuel).2 = st ∧
    (proposeM popSize freshDna sampleIdxs
        (fun m _ => mutateM doMutation alterNode buildValid rawSum randFloat freshSpec m fuel)
        cst).2.mutSt = cst.mutSt ∧
    (feedbackM popSize cst dna reward).mutSt.outputDict =
      dictInsert cst.mutSt.outputDict dna.hashOutput reward := by
  have hmut : ∀ m : MutState,
      (mutateM doMutation alterNode buildValid rawSum randFloat freshSpec m fuel).2 = m := by
    intro m
    rw [mutateM]
    cases doMutation with
    | false => rfl
    | true =>
      rw [if_pos rfl]
      exact mutateLoop_state alterNode buildValid rawSum randFloat m fuel
  refine ⟨hmut st, ?_, rfl⟩
  rw [proposeM]
  by_cases h : cst.population.length < popSize
  · rw [if_pos h]
  · rw [if_neg h]
    cases maxByReward (tournamentOf cst.population sampleIdxs) with
    | none => rfl
    | some sel => simp only [hmut]

theorem checkDuplicate_eta (d : List (ℚ × ℚ)) (fp : ℚ) :
    checkDuplicate d fp = (fp, (dictLookup d fp).isSome, (dictLookup d fp).getD 0) := by
  unfold checkDuplicate
  cases dictLookup d fp <;> rfl

theorem mutateLoop_some (alterNode : ℕ → ProgramSpecL) (buildValid : ProgramSpecL → Bool)
    (rawSum : ProgramSpecL → FVal) (randFloat : ℚ) (st : MutState) :
    ∀ (fuel : ℕ) (res : ProgramSpecL),
      (mutateLoop alterNode buildValid rawSum randFloat st fuel).1 = some res →
      ∃ i, buildValid (alterNode i) = true ∧
        res = { programLst := (alterNode i).programLst
                lossWeight := (alterNode i).lossWeight
                duplicate := (checkDuplicate st.outputDict
                  (computeHashQ (rawSum (alterNode i)) randFloat)).2.1
                reward := (checkDuplicate st.outputDict
                  (computeHashQ (rawSum (alterNode i)) randFloat)).2.2
                hashOutput := (checkDuplicate st.outputDict
                  (computeHashQ (rawSum (alterNode i)) randFloat)).1 } := by
  intro fuel
  induction fuel with
  | zero => intro res h; exact absurd h (by simp [mutateLoop])
  | succ n ih =>
    intro res h
    rw [mutateLoop] at h
    by_cases hv : buildValid (alterNode (n + 1)) = true
    · rw [if_pos hv] at h
      refine ⟨n + 1, hv, ?_⟩
      simp only [checkDuplicateM] at h
      injection h with h2
      exact h2.symm
    · rw [if_neg hv] at h
      exact ih res h

/-- C2 counterexample: the claim that a loss-node mutation returns
immediately, bypassing the structural validity check and the duplicate
check, is false. At a concrete input whose fingerprint (5) is already in
output_dict with reward 9, the loss-path result carries duplicate = true,
reward = 9 and hash_output = 5 — the duplicate check ran — so it differs
from the immediately returned _alter_continuous spec; and when the external
rebuild reports invalid, the loss path returns nothing at all (it keeps
retrying), so the validity check also ran. -/
theorem c2_counterexample :
    (mutateLossRun [(0, [])] [2] (fun _ => 0) (fun _ => true) (fun _ => FVal.fin 5) 0
        ⟨[(5, 9)]⟩ 1).1 =
      some { programLst := [(0, [])], lossWeight := 2, duplicate := true,
             reward := 9, hashOutput := 5 } ∧
    (mutateLossRun [(0, [])] [2] (fun _ => 0) (fun _ => true) (fun _ => FVal.fin 5) 0
        ⟨[(5, 9)]⟩ 1).1 ≠ some (alterContinuous [(0, [])] [2] 0) ∧
    (mutateLossRun [(0, [])] [2] (fun _ => 0) (fun _ => false) (fun _ => FVal.fin 5) 0
        ⟨[(5, 9)]⟩ 1).1 = none := by
  refine ⟨?_, ?_, rfl⟩ <;> decide

/-- C2 as amended: when the sampled target is the loss node the mutator
changes only the loss weight (drawn uniformly from the loss node's allowed
weights) and leaves the program list unchanged, but the new spec still goes
through the structural validity check (retrying while the rebuild is
invalid) and through the duplicate check, whose duplicate flag, cached
reward and fingerprint are attached to the returned spec. -/
theorem c2_loss_mutation_checked (programLst : List (ℕ × List ℕ)) (lossWeights : List ℚ)
    (wDraws : ℕ → ℕ) (buildValid : ProgramSpecL → Bool) (rawSum : ProgramSpecL → FVal)
    (randFloat : ℚ) (st : MutState) (fuel : ℕ) (res : ProgramSpecL)
    (h : (mutateLossRun programLst lossWeights wDraws buildValid rawSum randFloat
        st fuel).1 = some res) :
    res.programLst = programLst ∧
    ∃ i, res.lossWeight = lossWeights.getD (wDraws i % lossWeights.length) 0 ∧
      buildValid (alterContinuous programLst lossWeights (wDraws i)) = true ∧
      res.duplicate = (dictLookup st.outputDict
        (computeHashQ (rawSum (alterContinuous programLst lossWeights (wDraws i)))
          randFloat)).isSome ∧
      res.reward = (dictLookup st.outputDict
        (computeHashQ (rawSum (alterContinuous programLst lossWeights (wDraws i)))
          randFloat)).getD 0 ∧
      res.hashOutput = computeHashQ
        (rawSum (alterContinuous programLst lossWeights (wDraws i))) randFloat := by
  rw [mutateLossRun] at h
  obtain ⟨i, hv, hres⟩ := mutateLoop_some _ buildValid rawSum randFloat st fuel res h
  rw [checkDuplicate_eta] at hres
  subst hres
  exact ⟨rfl, i, rfl, hv, rfl, rfl, rfl⟩

/-- Witness for the amended C2 at a concrete input: with an empty tracker
and a valid rebuild, the loss path returns the unchanged program list, the
drawn weight, and no-duplicate metadata from the executed duplicate check. -/
theorem c2_loss_mutation_checked_witness :
    (ProgramSpecL.mk [(1, [0])] 3 false 0 2).programLst = [(1, [0])] ∧
    ∃ i, (ProgramSpecL.mk [(1, [0])] 3 false 0 2).lossWeight =
        [(3 : ℚ)].getD ((fun _ : ℕ => 0) i % [(3 : ℚ)].length) 0 ∧
      (fun _ : ProgramSpecL => true) (alterContinuous [(1, [0])] [3] ((fun _ : ℕ => 0) i)) = true ∧
      (ProgramSpecL.mk [(1, [0])] 3 false 0 2).duplicate =
        (dictLookup (⟨[]⟩ : MutState).outputDict
          (computeHashQ ((fun _ : ProgramSpecL => FVal.fin 2)
            (alterContinuous [(1, [0])] [3] ((fun _ : ℕ => 0) i))) 0)).isSome ∧
      (ProgramSpecL.mk [(1, [0])] 3 false 0 2).reward =
        (dictLookup (⟨[]⟩ : MutState).outputDict
          (computeHashQ ((fun _ : ProgramSpecL => FVal.fin 2)
            (alterContinuous [(1, [0])] [3] ((fun _ : ℕ => 0) i))) 0)).getD 0 ∧
      (ProgramSpecL.mk [(1, [0])] 3 false 0 2).hashOutput =
        computeHashQ ((fun _ : ProgramSpecL => FVal.fin 2)
          (alterContinuous [(1, [0])] [3] ((fun _ : ℕ => 0) i))) 0 :=
  c2_loss_mutation_checked [(1, [0])] [3] (fun _ => 0) (fun _ => true)
    (fun _ => FVal.fin 2) 0 ⟨[]⟩ 1 (ProgramSpecL.mk [(1, [0])] 3 false 0 2)
    (by decide)

/-- C1 counterexample: the claim that the candidate input nodes are exactly
the nodes at indices 0 .. k-1 (every node strictly before the target) is
false: at target index k = 2 of a three-node ops_lst the source slice
ops_lst[:k - 1] omits the node at index 1, which lies strictly before the
target. -/
theorem c1_counterexample :
    allInputsOf [⟨10⟩, ⟨11⟩, ⟨12⟩] 2 ≠ specCandidateInputs [⟨10⟩, ⟨11⟩, ⟨12⟩] 2 ∧
    (⟨11⟩ : Node) ∉ allInputsOf [⟨10⟩, ⟨11⟩, ⟨12⟩] 2 ∧
    (⟨11⟩ : Node) ∈ specCandidateInputs [⟨10⟩, ⟨11⟩, ⟨12⟩] 2 := by
  refine ⟨?_, ?_, ?_⟩ <;> decide

/-- C1 as amended: for a target node at index k ≥ 1 the candidate input
nodes enumerated by the structural mutation are exactly the nodes at indices
0 .. k-2 (the slice ops_lst[:k - 1]): position i of the candidate list is
node i of ops_lst when i + 1 < k, and there is no candidate at positions
k - 1 and beyond. -/
theorem c1_candidate_inputs (opsLst : List Node) (k : ℕ) (hk : 1 ≤ k) :
    allInputsOf opsLst k = opsLst.take (k - 1) ∧
    ∀ i : ℕ, (i + 1 < k → (allInputsOf opsLst k)[i]? = opsLst[i]?) ∧
      (k - 1 ≤ i → (allInputsOf opsLst k)[i]? = none) := by
  have hne : ¬ k = 0 := by omega
  have h1 : allInputsOf opsLst k = opsLst.take (k - 1) := by
    rw [allInputsOf, if_neg hne]
  refine ⟨h1, fun i => ⟨?_, ?_⟩⟩
  · intro hi
    rw [h1, List.getElem?_take, if_pos (by omega)]
  · intro hi
    rw [h1]
    exact List.getElem?_eq_none (by rw [List.length_take]; omega)

/-- Witness for the amended C1 at a concrete input: for a target at index 2
of a three-node list, position 0 of the candidate slice is node 0 and there
is no candidate at position 1. -/
theorem c1_candidate_inputs_witness :
    (allInputsOf [⟨10⟩, ⟨11⟩, ⟨12⟩] 2)[0]? = some ⟨10⟩ ∧
    (allInputsOf [⟨10⟩, ⟨11⟩, ⟨12⟩] 2)[1]? = none := by
  constructor
  · exact ((c1_candidate_inputs [⟨10⟩, ⟨11⟩, ⟨12⟩] 2 (by decide)).2 0).1 (by decide)
  · exact ((c1_candidate_inputs [⟨10⟩, ⟨11⟩, ⟨12⟩] 2 (by decide)).2 1).2 (by decide)

theorem mem_validLst (operators : List OpCls) (allInputs : List Node) (isLeaf : Bool)
    (origOdtype : ℕ) (opIdx : ℕ) (inputIdxs : List ℕ) :
    (opIdx, inputIdxs) ∈ validLst operators allInputs isLeaf origOdtype ↔
      ∃ opCls, operators[opIdx]? = some opCls ∧ opCls.isLoss = false ∧
        inputIdxs ∈ opCls.possibleInputIdxs allInputs.length ∧
        candidateOk opCls allInputs isLeaf origOdtype inputIdxs = true := by
  unfold validLst
  rw [List.mem_flatMap]
  constructor
  · rintro ⟨⟨i, cls⟩, hmem, hin⟩
    rw [List.mem_enum_iff_getElem?] at hmem
    by_cases hl : cls.isLoss = true
    · rw [if_pos hl] at hin
      exact absurd hin (List.not_mem_nil _)
    · rw [if_neg hl] at hin
      rw [List.mem_map] at hin
      obtain ⟨ii, hii, heq⟩ := hin
      rw [List.mem_filter] at hii
      injection heq with hfst hsnd
      subst hfst
      subst hsnd
      exact ⟨cls, hmem, Bool.not_eq_true cls.isLoss ▸ hl, hii.1, hii.2⟩
  · rintro ⟨cls, hget, hloss, hposs, hok⟩
    refine ⟨(opIdx, cls), List.mem_enum_iff_getElem?.mpr hget, ?_⟩
    rw [if_neg (by rw [hloss]; exact Bool.false_ne_true)]
    rw [List.mem_map]
    exact ⟨inputIdxs, List.mem_filter.mpr ⟨hposs, hok⟩, rfl⟩

/-- C7: a candidate accepted into valid_lst for a non-leaf target has an
inferred output dtype equal to the original node's output dtype; for a leaf
target, membership in valid_lst is exactly passing the operator's
input-validity precheck (over an enumerated input combination of a non-loss
operator), with no output-dtype constraint. -/
theorem c7_dtype_preservation (operators : List OpCls) (allInputs : List Node)
    (origOdtype : ℕ) (opIdx : ℕ) (inputIdxs : List ℕ) :
    ((opIdx, inputIdxs) ∈ validLst operators allInputs false origOdtype →
      ∀ opCls, operators[opIdx]? = some opCls →
        opCls.inferOdtype ((inputOpsOf allInputs inputIdxs).map Node.odtype) =
          origOdtype) ∧
    ((opIdx, inputIdxs) ∈ validLst operators allInputs true origOdtype ↔
      ∃ opCls, operators[opIdx]? = some opCls ∧ opCls.isLoss = false ∧
        inputIdxs ∈ opCls.possibleInputIdxs allInputs.length ∧
        opCls.precheck (inputOpsOf allInputs inputIdxs) = true) := by
  constructor
  · intro hmem opCls hget
    rw [mem_validLst] at hmem
    obtain ⟨cls, hget2, _, _, hok⟩ := hmem
    rw [hget] at hget2
    injection hget2 with h2
    subst h2
    unfold candidateOk at hok
    rw [Bool.and_eq_true] at hok
    have hok2 := hok.2
    simpa using hok2
  · rw [mem_validLst]
    constructor
    · rintro ⟨cls, hget, hloss, hposs, hok⟩
      refine ⟨cls, hget, hloss, hposs, ?_⟩
      unfold candidateOk at hok
      rw [Bool.and_eq_true] at hok
      exact hok.1
    · rintro ⟨cls, hget, hloss, hposs, hpre⟩
      refine ⟨cls, hget, hloss, hposs, ?_⟩
      unfold candidateOk
      rw [hpre]
      rfl

/-- Witness for C7 at a concrete input: a single-operator catalogue with a
passing precheck puts its candidate into valid_lst for a leaf target. -/
theorem c7_dtype_preservation_witness :
    (0, [0]) ∈ validLst [OpCls.mk (fun _ => true) (fun _ => 7) (fun _ => [[0]]) false]
      [⟨5⟩] true 0 :=
  (c7_dtype_preservation [OpCls.mk (fun _ => true) (fun _ => 7) (fun _ => [[0]]) false]
      [⟨5⟩] 0 0 [0]).2.mpr
    ⟨OpCls.mk (fun _ => true) (fun _ => 7) (fun _ => [[0]]) false, rfl, rfl,
      List.mem_singleton.mpr rfl, rfl⟩

/-- C5 counterexample: the claim that every random draw routes through the
controller's single seedable source — so that equal seeds give identical
runs — is false: two environments with the same seed but different
module-level random states draw different mutation-target indices, because
_sample_node_idx_to_mutate uses the module-level random.choice. -/
theorem c5_counterexample :
    (DrawEnv.mk 7 [0]).seed = (DrawEnv.mk 7 [1]).seed ∧
    proposalDraws (DrawEnv.mk 7 [0]) 4 2 1 0 4 true ≠
      proposalDraws (DrawEnv.mk 7 [1]) 4 2 1 0 4 true := by
  refine ⟨rfl, ?_⟩
  decide

/-- C5 as amended: the tournament-sampling draw routes through the
controller's seedable instance source, so it is identical for equal seeds;
the mutator's draws route through the module-level source, so a whole
proposal's draws coincide only when the module-level random state also
coincides. -/
theorem c5_seed_routing (e1 e2 : DrawEnv) (popLen tourSize numInputs numFreeze opsLen : ℕ)
    (adjustLossWeight : Bool) (hseed : e1.seed = e2.seed) :
    tournamentIdxs e1 popLen tourSize = tournamentIdxs e2 popLen tourSize ∧
    (e1.modStream = e2.modStream →
      proposalDraws e1 popLen tourSize numInputs numFreeze opsLen adjustLossWeight =
        proposalDraws e2 popLen tourSize numInputs numFreeze opsLen adjustLossWeight) := by
  obtain ⟨s1, m1⟩ := e1
  obtain ⟨s2, m2⟩ := e2
  cases hseed
  refine ⟨rfl, ?_⟩
  intro hm
  cases hm
  rfl

/-- Witness for the amended C5 at a concrete input: equal seeds give equal
tournament draws even under different module-level streams. -/
theorem c5_seed_routing_witness :
    tournamentIdxs (DrawEnv.mk 3 [5]) 4 2 = tournamentIdxs (DrawEnv.mk 3 [9]) 4 2 :=
  (c5_seed_routing (DrawEnv.mk 3 [5]) (DrawEnv.mk 3 [9]) 4 2 0 0 0 true rfl).1

end EvolvingRL
